import Mathlib

/-!
Verification development for the two test-conversion scripts of the
ts-minecraft repository:

* `src/scripts/convert-tests.py`           (modelled in namespace `S1`)
* `src/scripts/convert-tests-effect-vitest.py` (modelled in namespace `S2`)

Both scripts rewrite file contents, converting `it(name, () => ... )`
test registrations into `it.effect(name, () => Effect.gen(function* () ... ))`
and patching import lines.  File contents are modelled as `List Char`.
The Python regular expressions used by the scripts are small enough that
each one is embedded as a dedicated deterministic matcher (with explicit
backtracking where the regex engine would backtrack), and `re.sub` is
embedded as a generic left-to-right scan-and-replace engine (`subAll`).

Python's `\s` is modelled by the six ASCII whitespace characters
(space, tab, newline, carriage return, vertical tab, form feed); all
theorems below only involve such characters.
-/

namespace TsMc

abbrev Str := List Char

def toL (s : String) : Str := s.toList

/-- Python `\s` on ASCII text: space, tab, newline, CR, VT, FF. -/
def isSpace (c : Char) : Bool :=
  decide (c = ' ') || decide (c = '\t') || decide (c = '\n') ||
  decide (c = '\r') || decide (c = '\x0b') || decide (c = '\x0c')

/-- Python `\w` on ASCII text (used by the `\b` word boundary). -/
def isWordChar (c : Char) : Bool := c.isAlphanum || decide (c = '_')

/-- The character `{`. -/
def lbChar : Char := Char.ofNat 123

/-- The character `}`. -/
def rbChar : Char := Char.ofNat 125

/-- Python's `pat in s` substring test. -/
def hasSub (s pat : Str) : Bool :=
  match s with
  | [] => pat.isEmpty
  | _ :: tl => pat.isPrefixOf s || hasSub tl pat

/-- Python's `str.strip()`: drop leading and trailing whitespace. -/
def stripStr (s : Str) : Str :=
  ((s.dropWhile isSpace).reverse.dropWhile isSpace).reverse

/-- A line whose `strip()` is empty, i.e. consisting of whitespace only. -/
def isBlankLine (l : Str) : Bool := l.all isSpace

/-- Match a literal at the start of the input and return the remainder. -/
def dropLit (lit s : Str) : Option Str :=
  if lit.isPrefixOf s then some (s.drop lit.length) else none

/-- Python `list.insert(i, a)`: clamps the index to the length. -/
def pyInsert (i : Nat) (a : α) (l : List α) : List α :=
  l.take i ++ a :: l.drop i

/-- Result of matching a substitution pattern at the head of the input:
the replacement text and the input remaining after the match. -/
structure SubM where
  repl : Str
  rest : Str
deriving DecidableEq

/-- Fuelled core of the `re.sub` scan: at each position try the matcher;
on a match emit the replacement and continue after the match, otherwise
emit one character and move on.  The fuel only serves termination; it is
never exhausted when it starts at the length of the input. -/
def subF (m : Str → Option SubM) : Nat → Str → Str
  | _, [] => []
  | 0, s => s
  | f + 1, c :: cs =>
    match m (c :: cs) with
    | some r => r.repl ++ subF m f r.rest
    | none => c :: subF m f cs

/-- `re.sub(pattern, repl, s)` for the matcher `m`: replace every
non-overlapping match, scanning left to right. -/
def subAll (m : Str → Option SubM) (s : Str) : Str := subF m s.length s

/-- Python `str.replace(pat, rep)` (for a non-empty `pat`). -/
def replAllM (pat rep : Str) (s : Str) : Option SubM :=
  if pat.isPrefixOf s && !pat.isEmpty then some ⟨rep, s.drop pat.length⟩ else none

def replaceAll (pat rep s : Str) : Str := subAll (replAllM pat rep) s

/-- Does the matcher match anywhere in `s` (i.e. would `re.search` succeed)? -/
def existsMatchAt (m : Str → Option SubM) (s : Str) : Bool :=
  (List.range (s.length + 1)).any fun p => (m (s.drop p)).isSome



def itLit : Str := toL "it("

def parLit : Str := toL "()"

def arrLit : Str := toL "=>"

def notComma (c : Char) : Bool := !decide (c = ',')

def notRb (c : Char) : Bool := !decide (c = rbChar)

namespace S1

/-!
Model of `src/scripts/convert-tests.py`.

The main pattern (line 14) is
`(\s*)it\(([^,]+),\s*\(\)\s*=>\s*\{([^}]*(?:\{[^}]*\}[^}]*)*)\}\)`.
Every quantifier in it is determined by the following literal except for
the body group `([^}]*(?:\{[^}]*\}[^}]*)*)`: `[^}]*` cannot cross a
`}`, so the engine first reaches the body that ends at the first `}`;
only when the following `\}\)` fails does backtracking shorten the
leading `[^}]*` until a `{` is exposed and one more `\{[^}]*\}[^}]*`
chunk is consumed, extending the body to the next `}`, and so on.  The
engine therefore returns the SHORTEST body followed by `})`.
`bodyCands` enumerates the possible (body, text after the closing `}`)
splits in exactly this order — each candidate ends immediately before
some `}` of the scanned region, up to the first `}` that closes no
pair — and `pickBody1` picks the first one followed by `)`.
-/

/-- Groups captured by the `it(...)` pattern of convert-tests.py, plus
the text remaining after the match. -/
structure M1 where
  ind : Str
  name : Str
  w1 : Str
  w2 : Str
  w3 : Str
  body : Str
  rest : Str
deriving DecidableEq

/-- Candidate splits of the body group: scanning with a one-deep brace
flag, each `}` yields a candidate (text before it, text after it); a `}`
met with the flag down ends the scan. -/
def bodyCands : Str → Bool → Str → List (Str × Str)
  | [], _, _ => []
  | c :: cs, flag, acc =>
    if c = rbChar then
      if flag then (acc, cs) :: bodyCands cs false (acc ++ [rbChar])
      else [(acc, cs)]
    else if c = lbChar then bodyCands cs true (acc ++ [c])
    else bodyCands cs flag (acc ++ [c])

/-- Does the text start with `)`? -/
def startsRParen : Str → Bool
  | c :: _ => decide (c = ')')
  | [] => false

/-- Backtracking choice of the body: the first (shortest) candidate
whose following text starts with `)` (matching the final `\}\)` of the
pattern). -/
def pickBody1 (s : Str) : Option (Str × Str) :=
  match (bodyCands s false []).find? fun q => startsRParen q.2 with
  | some q => some (q.1, q.2.tail)
  | none => none

/-- Matcher for the pattern of convert-tests.py line 14, anchored at the
start of `s`. -/
def matchIt1 (s : Str) : Option M1 :=
  let w := s.takeWhile isSpace
  let s1 := s.dropWhile isSpace
  match dropLit itLit s1 with
  | none => none
  | some s2 =>
    let name := s2.takeWhile notComma
    let s3 := s2.dropWhile notComma
    if name.isEmpty then none
    else
      match s3 with
      | ',' :: s4 =>
        let u1 := s4.takeWhile isSpace
        let s5 := s4.dropWhile isSpace
        match dropLit parLit s5 with
        | none => none
        | some s6 =>
          let u2 := s6.takeWhile isSpace
          let s7 := s6.dropWhile isSpace
          match dropLit arrLit s7 with
          | none => none
          | some s8 =>
            let u3 := s8.takeWhile isSpace
            let s9 := s8.dropWhile isSpace
            match s9 with
            | c :: s10 =>
              if c = lbChar then
                match pickBody1 s10 with
                | some (b, r) => some ⟨w, name, u1, u2, u3, b, r⟩
                | none => none
              else none
            | [] => none
      | _ => none

/-- Per-line reindentation of `replace_match` (convert-tests.py lines
25-31): two extra spaces for lines with non-whitespace content, other
lines kept as they are. -/
def indentLines1 : List Str → List Str
  | [] => []
  | l :: ls => (if isBlankLine l then l else ' ' :: ' ' :: l) :: indentLines1 ls

/-- `replace_match` body processing: strip the body, split on newlines,
reindent, and rejoin. -/
def reindent1 (body : Str) : Str :=
  List.intercalate ['\n'] (indentLines1 ((stripStr body).splitOn '\n'))

/-- The replacement string built by `replace_match` (convert-tests.py
lines 35-39). -/
def repl1 (ind name body : Str) : Str :=
  ind ++ toL "it.effect(" ++ name ++ toL ", () =>\n" ++ ind ++
  toL "  Effect.gen(function* () \x7b\n" ++ reindent1 body ++ ['\n'] ++ ind ++
  toL "  \x7d)\n" ++ ind ++ [')']

/-- The substitution matcher of `re.sub(pattern, replace_match, content)`. -/
def mr1 (s : Str) : Option SubM :=
  (matchIt1 s).map fun g => ⟨repl1 g.ind g.name g.body, g.rest⟩

/-!
Import handling of convert-tests.py (lines 45-64).
`import_pattern` is `(import\s*\{\s*[^}]*)\}\s*from\s*'vitest'`;
`effect_pattern` is `(import\s*\{\s*[^}]*?)(}\s*from\s*'effect')`;
the insertion point search uses `import.*from\s*'vitest'`.
In all three, `\s*[^}]*` (greedy) and `\s*[^}]*?` (lazy) both consume
exactly the characters before the first `}`, since `[^}]` cannot cross a
`}` and the continuation requires one.
-/

/-- Matcher for `import_pattern`, anchored at the start of `s`; returns
the `re.sub` replacement `\1} from 'vitest'` and the remaining text. -/
def mImpAt (s : Str) : Option SubM :=
  match dropLit (toL "import") s with
  | none => none
  | some r1 =>
    let w1 := r1.takeWhile isSpace
    let r2 := r1.dropWhile isSpace
    match r2 with
    | c :: r3 =>
      if c = lbChar then
        let nb := r3.takeWhile notRb
        let r4 := r3.dropWhile notRb
        match r4 with
        | c2 :: r5 =>
          if c2 = rbChar then
            let r6 := r5.dropWhile isSpace
            match dropLit (toL "from") r6 with
            | none => none
            | some r7 =>
              let r8 := r7.dropWhile isSpace
              match dropLit (toL "'vitest'") r8 with
              | none => none
              | some r9 =>
                some ⟨toL "import" ++ w1 ++ lbChar :: nb ++ toL "\x7d from 'vitest'", r9⟩
          else none
        | [] => none
      else none
    | [] => none

/-- Matcher for `effect_pattern`, anchored at the start of `s`; returns
the `re.sub` replacement `\1, Effect\2` and the remaining text. -/
def mEffAt (s : Str) : Option SubM :=
  match dropLit (toL "import") s with
  | none => none
  | some r1 =>
    let w1 := r1.takeWhile isSpace
    let r2 := r1.dropWhile isSpace
    match r2 with
    | c :: r3 =>
      if c = lbChar then
        let nb := r3.takeWhile notRb
        let r4 := r3.dropWhile notRb
        match r4 with
        | c2 :: r5 =>
          if c2 = rbChar then
            let w3 := r5.takeWhile isSpace
            let r6 := r5.dropWhile isSpace
            match dropLit (toL "from") r6 with
            | none => none
            | some r7 =>
              let w4 := r7.takeWhile isSpace
              let r8 := r7.dropWhile isSpace
              match dropLit (toL "'effect'") r8 with
              | none => none
              | some r9 =>
                some ⟨(toL "import" ++ w1 ++ lbChar :: nb) ++ toL ", Effect" ++
                  (rbChar :: w3 ++ toL "from" ++ w4 ++ toL "'effect'"), r9⟩
          else none
        | [] => none
      else none
    | [] => none

/-- Tail of `import.*from\s*'vitest'` after the `.*` part: `from`, then
whitespace, then `'vitest'`; returns the number of characters consumed. -/
def fromVitCheck (t : Str) : Option Nat :=
  match dropLit (toL "from") t with
  | none => none
  | some t1 =>
    let w := t1.takeWhile isSpace
    let t2 := t1.dropWhile isSpace
    match dropLit (toL "'vitest'") t2 with
    | none => none
    | some _ => some (4 + w.length + 8)

/-- Matcher for `import.*from\s*'vitest'` anchored at the start of `s`,
returning the length of the match.  `.*` (no DOTALL here) is bounded by
the end of the line and greedy, so the longest feasible middle wins. -/
def vitAt (s : Str) : Option Nat :=
  match dropLit (toL "import") s with
  | none => none
  | some r =>
    let lineLen := (r.takeWhile fun c => !decide (c = '\n')).length
    match (List.range (lineLen + 1)).reverse.find? fun k => (fromVitCheck (r.drop k)).isSome with
    | some k =>
      match fromVitCheck (r.drop k) with
      | some m => some (6 + k + m)
      | none => none
    | none => none

/-- `re.search(r"import.*from\s*'vitest'", s)`: position of the end of
the leftmost match. -/
def searchVit (s : Str) : Option Nat :=
  match (List.range (s.length + 1)).find? fun p => (vitAt (s.drop p)).isSome with
  | some p =>
    match vitAt (s.drop p) with
    | some m => some (p + m)
    | none => none
  | none => none

/-- The import-fixing part of `convert_it_to_effect`
(convert-tests.py lines 45-64). -/
def importStep1 (r : Str) : Str :=
  if !hasSub r (toL "import \x7b Effect") && hasSub r (toL "Effect.gen") then
    let r1 := if existsMatchAt mImpAt r then subAll mImpAt r else r
    if hasSub r1 (toL "from 'effect'") then
      if !hasSub r1 (toL ", Effect") then subAll mEffAt r1 else r1
    else
      match searchVit r1 with
      | some e => r1.take e ++ toL "\nimport \x7b Effect \x7d from 'effect'" ++ r1.drop e
      | none => r1
  else r

/-- `convert_it_to_effect` of convert-tests.py: the substitution pass
followed by the import step. -/
def convert1 (c : Str) : Str := importStep1 (subAll mr1 c)

/-- Outcome of `process_file`: the returned boolean, the content written
(if a write was issued and succeeded), and the lines printed. -/
structure ProcOut where
  returned : Bool
  written : Option Str
  printed : List Str
deriving DecidableEq

/-- The message printed by the `except` clause of both scripts. -/
def errMsg (path e : Str) : Str := toL "Error processing " ++ path ++ toL ": " ++ e

/-- `process_file` of convert-tests.py (lines 68-90), with the read and
write outcomes as explicit parameters standing for the `try` block's
interactions with the file system; a raised exception is an `.error`. -/
def processFile1 (path : Str) (readRes : Except Str Str) (writeRes : Except Str Unit) :
    ProcOut :=
  match readRes with
  | .error e => ⟨false, none, [errMsg path e]⟩
  | .ok content =>
    if hasSub content itLit then
      if convert1 content = content then ⟨false, none, []⟩
      else
        match writeRes with
        | .ok _ => ⟨true, some (convert1 content), []⟩
        | .error e => ⟨false, none, [errMsg path e]⟩
    else ⟨false, none, []⟩

end S1

namespace S2

/-!
Model of `src/scripts/convert-tests-effect-vitest.py`.

`convert_it_to_effect` short-circuits when `it.effect(` is already
present (line 14), then runs two substitution passes and `fix_imports`.

First pass (line 43): `(\s*)it\(([^,]+),\s*(\(\)\s*=>\s*\{)([^}]*(?:\{[^}]*\}[^}]*)*)\}`
— same shape as the convert-tests.py pattern but the arrow part is
captured as group 3 and the pattern ends at `\}` with no `\)`.  With
nothing after `\}`, the engine never backtracks: `[^}]*` (which may
consume `{`) runs to the first `}`, the optional
`(?:\{[^}]*\}[^}]*)*` group cannot start there, and `\}` succeeds at
once.  The captured body is therefore always exactly the text before
the first `}` — a nested `{...}` pair is never captured — and the
original `)` is left in the text.

Second pass (line 73): `(\s*)it\(([^,]+),\s*\(\)\s*=>\s*\{(.*?)\n(\s*)\}\)`
with DOTALL — the lazy `(.*?)` stops at the first `\n` followed by
whitespace and `})`.
-/

/-- Groups captured by the first-pass pattern, plus the remaining text.
`arrow` is group 3, `(\(\)\s*=>\s*\{)`. -/
structure M2a where
  ind : Str
  name : Str
  arrow : Str
  body : Str
  rest : Str
deriving DecidableEq

/-- Body capture for the first pass: the pattern ends right after the
body group at `\}`, so no backtracking ever occurs — the body is the
text before the first `}`, and the pattern fails when no `}` lies
ahead. -/
def bodyFirstRb (s : Str) : Option (Str × Str) :=
  match s.dropWhile notRb with
  | _ :: rest => some (s.takeWhile notRb, rest)
  | [] => none

/-- Matcher for the first-pass pattern, anchored at the start of `s`. -/
def matchIt2a (s : Str) : Option M2a :=
  let w := s.takeWhile isSpace
  let s1 := s.dropWhile isSpace
  match dropLit itLit s1 with
  | none => none
  | some s2 =>
    let name := s2.takeWhile notComma
    let s3 := s2.dropWhile notComma
    if name.isEmpty then none
    else
      match s3 with
      | ',' :: s4 =>
        let s5 := s4.dropWhile isSpace
        match dropLit parLit s5 with
        | none => none
        | some s6 =>
          let u2 := s6.takeWhile isSpace
          let s7 := s6.dropWhile isSpace
          match dropLit arrLit s7 with
          | none => none
          | some s8 =>
            let u3 := s8.takeWhile isSpace
            let s9 := s8.dropWhile isSpace
            match s9 with
            | c :: s10 =>
              if c = lbChar then
                match bodyFirstRb s10 with
                | some (b, r) =>
                  some ⟨w, name, parLit ++ u2 ++ arrLit ++ u3 ++ [lbChar], b, r⟩
                | none => none
              else none
            | [] => none
      | _ => none

/-- Per-line reindentation of `replace_it_test` and `replace_complex_it`
(lines 28-33 and 57-62): non-blank lines are left-stripped and prefixed
with six spaces, blank lines become empty lines. -/
def indentLines2 : List Str → List Str
  | [] => []
  | l :: ls =>
    (if isBlankLine l then [] else toL "      " ++ l.dropWhile isSpace) :: indentLines2 ls

/-- `replace_it_test` body processing: strip, split, reindent, rejoin. -/
def reindent2 (body : Str) : Str :=
  List.intercalate ['\n'] (indentLines2 ((stripStr body).splitOn '\n'))

/-- The `arrow_part.replace('=>', ...)` step of `replace_it_test`
(line 37). -/
def arrowSub (ind arrow : Str) : Str :=
  replaceAll arrLit (arrLit ++ '\n' :: ind ++ toL "  Effect.gen(function* () \x7b") arrow

/-- The replacement string built by `replace_it_test` (lines 37-40). -/
def repl2a (ind name arrow body : Str) : Str :=
  ind ++ toL "it.effect(" ++ name ++ [','] ++ arrowSub ind arrow ++ ['\n'] ++
  reindent2 body ++ ['\n'] ++ ind ++ toL "  \x7d)\n" ++ ind ++ [')']

/-- The substitution matcher of the first pass (line 46). -/
def mr2a (s : Str) : Option SubM :=
  (matchIt2a s).map fun g => ⟨repl2a g.ind g.name g.arrow g.body, g.rest⟩

/-- Groups captured by the second-pass pattern, plus the remaining text. -/
structure M2b where
  ind : Str
  name : Str
  body : Str
  w4 : Str
  rest : Str
deriving DecidableEq

/-- Lazy capture of `(.*?)\n(\s*)\}\)` (DOTALL): the shortest prefix
followed by a newline, whitespace, and `})`. -/
def lazySplit : Str → Option (Str × Str × Str)
  | [] => none
  | c :: cs =>
    if c = '\n' then
      let w := cs.takeWhile isSpace
      let t := cs.dropWhile isSpace
      if (rbChar :: [')']).isPrefixOf t then some ([], w, t.drop 2)
      else (lazySplit cs).map fun q => (c :: q.1, q.2.1, q.2.2)
    else (lazySplit cs).map fun q => (c :: q.1, q.2.1, q.2.2)

/-- Matcher for the second-pass pattern, anchored at the start of `s`. -/
def matchIt2b (s : Str) : Option M2b :=
  let w := s.takeWhile isSpace
  let s1 := s.dropWhile isSpace
  match dropLit itLit s1 with
  | none => none
  | some s2 =>
    let name := s2.takeWhile notComma
    let s3 := s2.dropWhile notComma
    if name.isEmpty then none
    else
      match s3 with
      | ',' :: s4 =>
        let s5 := s4.dropWhile isSpace
        match dropLit parLit s5 with
        | none => none
        | some s6 =>
          let s7 := s6.dropWhile isSpace
          match dropLit arrLit s7 with
          | none => none
          | some s8 =>
            let s9 := s8.dropWhile isSpace
            match s9 with
            | c :: s10 =>
              if c = lbChar then
                match lazySplit s10 with
                | some (b, w4, r) => some ⟨w, name, b, w4, r⟩
                | none => none
              else none
            | [] => none
      | _ => none

/-- `replace_complex_it` body processing (lines 55-64): split the body
as captured (no strip) and reindent each line. -/
def reindent2b (body : Str) : Str :=
  List.intercalate ['\n'] (indentLines2 (body.splitOn '\n'))

/-- The replacement string built by `replace_complex_it` (lines 66-70). -/
def repl2b (ind name body : Str) : Str :=
  ind ++ toL "it.effect(" ++ name ++ toL ", () =>\n" ++ ind ++
  toL "  Effect.gen(function* () \x7b\n" ++ reindent2b body ++ ['\n'] ++ ind ++
  toL "  \x7d)\n" ++ ind ++ [')']

/-- The substitution matcher of the second pass (line 74). -/
def mr2b (s : Str) : Option SubM :=
  (matchIt2b s).map fun g => ⟨repl2b g.ind g.name g.body, g.rest⟩

def pass2a (c : Str) : Str := subAll mr2a c

def pass2b (c : Str) : Str := subAll mr2b c

/-!
Model of `fix_imports` (lines 81-133).
-/

def quoteChar (c : Char) : Bool := decide (c = Char.ofNat 39) || decide (c = Char.ofNat 34)

/-- `re.match(r"import\s*\{[^}]*\}\s*from\s*['\"]MOD['\"]", line)` as a
boolean, for the module literal `modName`. -/
def importLineMatch (modName : Str) (l : Str) : Bool :=
  match dropLit (toL "import") l with
  | none => false
  | some r1 =>
    let r2 := r1.dropWhile isSpace
    match r2 with
    | c :: r3 =>
      if c = lbChar then
        let r4 := r3.dropWhile notRb
        match r4 with
        | c2 :: r5 =>
          if c2 = rbChar then
            let r6 := r5.dropWhile isSpace
            match dropLit (toL "from") r6 with
            | none => false
            | some r7 =>
              let r8 := r7.dropWhile isSpace
              match r8 with
              | q1 :: r9 =>
                if quoteChar q1 then
                  match dropLit modName r9 with
                  | none => false
                  | some r10 =>
                    match r10 with
                    | q2 :: _ => quoteChar q2
                    | [] => false
                else false
              | [] => false
          else false
        | [] => false
      else false
    | [] => false

def vitestLine (l : Str) : Bool := importLineMatch (toL "vitest") l

def effectLine (l : Str) : Bool := importLineMatch (toL "effect") l

def boundaryOk : Option Char → Bool
  | none => true
  | some c => !isWordChar c

/-- Fuelled scan of `re.sub(r'\bit\s*,?\s*', '', line)` (line 99),
tracking the character preceding the current position for the `\b`
word-boundary test. -/
def stripItF : Nat → Option Char → Str → Str
  | _, _, [] => []
  | 0, _, s => s
  | f + 1, prev, c :: cs =>
    if decide (c = 'i') && boundaryOk prev && (['t']).isPrefixOf cs then
      let r0 := cs.drop 1
      let u1 := r0.takeWhile isSpace
      let r1 := r0.dropWhile isSpace
      let hasC : Bool :=
        match r1 with
        | ',' :: _ => true
        | _ => false
      let r2 := if hasC then r1.drop 1 else r1
      let u2 := r2.takeWhile isSpace
      let r3 := r2.dropWhile isSpace
      let consumed := 'i' :: 't' :: (u1 ++ (if hasC then [','] else []) ++ u2)
      stripItF f (some (consumed.getLastD 'i')) r3
    else c :: stripItF f (some c) cs

def stripIt (l : Str) : Str := stripItF l.length none l

/-- `re.sub(r',\s*,', ',', line)` (line 100). -/
def mDblComma (s : Str) : Option SubM :=
  match s with
  | ',' :: t =>
    match t.dropWhile isSpace with
    | ',' :: r2 => some ⟨[','], r2⟩
    | _ => none
  | _ => none

/-- `re.sub(r'\{\s*,', '{', line)` (line 101). -/
def mOpenComma (s : Str) : Option SubM :=
  match s with
  | c :: t =>
    if c = lbChar then
      match t.dropWhile isSpace with
      | ',' :: r2 => some ⟨[lbChar], r2⟩
      | _ => none
    else none
  | [] => none

/-- `re.sub(r',\s*\}', '}', line)` (line 102). -/
def mCloseComma (s : Str) : Option SubM :=
  match s with
  | ',' :: t =>
    match t.dropWhile isSpace with
    | c :: r2 => if c = rbChar then some ⟨[rbChar], r2⟩ else none
    | _ => none
  | _ => none

/-- The processing applied to a matched vitest import line
(lines 99-102). -/
def processVitestLine (l : Str) : Str :=
  subAll mCloseComma (subAll mOpenComma (subAll mDblComma (stripIt l)))

/-- The processing applied to a matched effect import line
(lines 113-115). -/
def processEffectLine (l : Str) : Str :=
  if !hasSub l (toL ", Effect") && !hasSub l (toL "Effect") then
    replaceAll [rbChar] (toL ", Effect\x7d") l
  else l

def itImportLine : Str := toL "import \x7b it \x7d from '@effect/vitest'"

def describeLine : Str := toL "import \x7b describe, expect \x7d from 'vitest'"

def effectImportLine : Str := toL "import \x7b Effect \x7d from 'effect'"

/-- The line loop of `fix_imports` (lines 94-119), returning the new
lines and the three found-flags (vitest, effect-vitest, effect). -/
def fixLoop : List Str → Bool → Bool → Bool → List Str × Bool × Bool × Bool
  | [], v, ev, e => ([], v, ev, e)
  | l :: ls, v, ev, e =>
    if vitestLine l then
      let res := fixLoop ls true true e
      ((if ev then [processVitestLine l] else [processVitestLine l, itImportLine]) ++ res.1,
        res.2)
    else if effectLine l then
      let res := fixLoop ls v ev true
      (processEffectLine l :: res.1, res.2)
    else
      let res := fixLoop ls v ev e
      (l :: res.1, res.2)

/-- `fix_imports` (lines 81-133). -/
def fixImports2 (c : Str) : Str :=
  if hasSub c (toL "it.effect(") then
    let res := fixLoop (c.splitOn '\n') false false false
    let v := res.2.1
    let ev := res.2.2.1
    let e := res.2.2.2
    let nl1 := if !v && hasSub c (toL "describe(") then pyInsert 0 describeLine res.1 else res.1
    let nl2 :=
      if !ev && hasSub c (toL "it.effect(") then
        pyInsert (if !v then 1 else 2) itImportLine nl1
      else nl1
    let nl3 :=
      if !e && hasSub c (toL "Effect.gen") then
        pyInsert (if ev then 2 else 1) effectImportLine nl2
      else nl2
    List.intercalate ['\n'] nl3
  else c

/-- `convert_it_to_effect` of convert-tests-effect-vitest.py
(lines 10-79). -/
def convert2 (c : Str) : Str :=
  if hasSub c (toL "it.effect(") then c
  else fixImports2 (pass2b (pass2a c))

/-- `process_file` of convert-tests-effect-vitest.py (lines 135-157),
with read and write outcomes as explicit parameters. -/
def processFile2 (path : Str) (readRes : Except Str Str) (writeRes : Except Str Unit) :
    S1.ProcOut :=
  match readRes with
  | .error e => ⟨false, none, [S1.errMsg path e]⟩
  | .ok content =>
    if !hasSub content itLit || hasSub content (toL "it.effect(") then ⟨false, none, []⟩
    else
      if convert2 content = content then ⟨false, none, []⟩
      else
        match writeRes with
        | .ok _ => ⟨true, some (convert2 content), []⟩
        | .error e => ⟨false, none, [S1.errMsg path e]⟩

end S2

/-- Reindentation rule in the words of the specification (spec section
4.1 and claim C3): the body is trimmed as a whole, then every non-blank
line receives two additional spaces while keeping its own leading
whitespace, and every blank line is emitted as an empty line.  Stated
only for comparison with the scripts' actual rules. -/
def reindentClaim3 (body : Str) : Str :=
  List.intercalate ['\n'] (((stripStr body).splitOn '\n').map fun l =>
    if isBlankLine l then [] else ' ' :: ' ' :: l)

section EngineLemmas

theorem hasSub_iff (s pat : Str) : hasSub s pat = true ↔ ∃ a b, s = a ++ pat ++ b := by
  induction s with
  | nil =>
    simp only [hasSub, List.isEmpty_iff]
    constructor
    · rintro rfl; exact ⟨[], [], rfl⟩
    · rintro ⟨a, b, h⟩
      rcases List.append_eq_nil.mp h.symm with ⟨h1, h2⟩
      exact (List.append_eq_nil.mp h1).2
  | cons c tl ih =>
    simp only [hasSub, Bool.or_eq_true, List.isPrefixOf_iff_prefix, ih]
    constructor
    · rintro (⟨t, ht⟩ | ⟨a, b, rfl⟩)
      · exact ⟨[], t, by simp [← ht]⟩
      · exact ⟨c :: a, b, by simp⟩
    · rintro ⟨a, b, h⟩
      cases a with
      | nil => exact Or.inl ⟨b, by simpa using h.symm⟩
      | cons a0 a' =>
        right
        refine ⟨a', b, ?_⟩
        simpa using (List.cons_eq_cons.mp h).2

theorem hasSub_of_eq {s pat a b : Str} (h : s = a ++ pat ++ b) : hasSub s pat = true :=
  (hasSub_iff s pat).mpr ⟨a, b, h⟩

theorem not_hasSub {s pat a b : Str} (h : hasSub s pat = false) : s ≠ a ++ pat ++ b := by
  intro he
  rw [hasSub_of_eq he] at h
  simp at h

theorem dropLit_append (lit r : Str) : dropLit lit (lit ++ r) = some r := by
  have pf : lit.isPrefixOf (lit ++ r) = true :=
    List.isPrefixOf_iff_prefix.mpr (List.prefix_append lit r)
  simp [dropLit, pf, List.drop_left]

theorem dropLit_some {lit s r : Str} (h : dropLit lit s = some r) : s = lit ++ r := by
  unfold dropLit at h
  split at h
  · next hp =>
    rcases List.isPrefixOf_iff_prefix.mp hp with ⟨t, ht⟩
    cases h
    rw [← ht, List.drop_left]
  · exact absurd h (by simp)

theorem takeWhile_all_cons {p : Char → Bool} {a : Str} (b : Char) (t : Str)
    (ha : ∀ c ∈ a, p c = true) (hb : p b = false) :
    (a ++ b :: t).takeWhile p = a := by
  induction a with
  | nil => simp [List.takeWhile, hb]
  | cons x xs ih =>
    have hx : p x = true := ha x (by simp)
    simp only [List.cons_append, List.takeWhile, hx, List.append_eq]
    rw [ih (fun c hc => ha c (by simp [hc]))]

theorem dropWhile_all_cons {p : Char → Bool} {a : Str} (b : Char) (t : Str)
    (ha : ∀ c ∈ a, p c = true) (hb : p b = false) :
    (a ++ b :: t).dropWhile p = b :: t := by
  induction a with
  | nil => simp [List.dropWhile, hb]
  | cons x xs ih =>
    have hx : p x = true := ha x (by simp)
    simp only [List.cons_append, List.dropWhile, hx, List.append_eq]
    exact ih (fun c hc => ha c (by simp [hc]))

theorem subF_irrel (m : Str → Option SubM)
    (hm : ∀ s r, m s = some r → r.rest.length < s.length) :
    ∀ f1 f2 s, s.length ≤ f1 → s.length ≤ f2 → subF m f1 s = subF m f2 s := by
  intro f1
  induction f1 with
  | zero =>
    intro f2 s h1 _
    have : s = [] := List.eq_nil_of_length_eq_zero (Nat.le_zero.mp h1)
    subst this
    cases f2 <;> rfl
  | succ k ih =>
    intro f2 s h1 h2
    cases s with
    | nil => cases f2 <;> rfl
    | cons c cs =>
      cases f2 with
      | zero => exact absurd h2 (by simp)
      | succ j =>
        cases hmc : m (c :: cs) with
        | some r =>
          have hr := hm _ _ hmc
          simp only [List.length_cons] at h1 h2 hr
          simp only [subF, hmc]
          rw [ih j r.rest (by omega) (by omega)]
        | none =>
          simp only [List.length_cons] at h1 h2
          simp only [subF, hmc]
          rw [ih j cs (by omega) (by omega)]

theorem subAll_nil (m : Str → Option SubM) : subAll m [] = [] := rfl

theorem subAll_cons_none {m : Str → Option SubM} {c : Char} {cs : Str}
    (h : m (c :: cs) = none) : subAll m (c :: cs) = c :: subAll m cs := by
  simp [subAll, subF, h]

theorem subAll_match {m : Str → Option SubM}
    (hm : ∀ s r, m s = some r → r.rest.length < s.length)
    {s : Str} {r : SubM} (h : m s = some r) :
    subAll m s = r.repl ++ subAll m r.rest := by
  have hr := hm _ _ h
  cases s with
  | nil => simp at hr
  | cons c cs =>
    simp only [subAll, List.length_cons, subF, h]
    congr 1
    simp only [List.length_cons] at hr
    exact subF_irrel m hm _ _ _ (by omega) le_rfl

theorem subAll_nomatch {m : Str → Option SubM} :
    ∀ {s : Str}, (∀ p, m (s.drop p) = none) → subAll m s = s := by
  intro s
  induction s with
  | nil => intro _; rfl
  | cons c cs ih =>
    intro h
    rw [subAll_cons_none (h 0), ih (fun p => by simpa [List.drop_succ_cons] using h (p + 1))]

theorem subAll_scan {m : Str → Option SubM} :
    ∀ (a : Str) (b : Str), (∀ p < a.length, m ((a ++ b).drop p) = none) →
    subAll m (a ++ b) = a ++ subAll m b := by
  intro a
  induction a with
  | nil => intro b _; rfl
  | cons c a' ih =>
    intro b h
    have h0 : m (c :: (a' ++ b)) = none := by simpa using h 0 (by simp)
    rw [List.cons_append, subAll_cons_none h0,
      ih b (fun p hp => by simpa [List.drop_succ_cons] using h (p + 1) (by simpa using hp))]
    simp

end EngineLemmas

/-! ### Characterization of the body capture of convert-tests.py -/

namespace S1

theorem bodyCands_skip {b : Str} (hb : ∀ c ∈ b, c ≠ lbChar ∧ c ≠ rbChar) :
    ∀ (t : Str) (flag : Bool) (acc : Str),
    bodyCands (b ++ t) flag acc = bodyCands t flag (acc ++ b) := by
  induction b with
  | nil => intro t flag acc; simp
  | cons x xs ih =>
    intro t flag acc
    have hx := hb x (by simp)
    rw [List.cons_append, bodyCands]
    simp only [if_neg hx.2, if_neg hx.1]
    rw [ih (fun c hc => hb c (by simp [hc])) t flag (acc ++ [x])]
    simp

theorem bodyCands_open (t : Str) (flag : Bool) (acc : Str) :
    bodyCands (lbChar :: t) flag acc = bodyCands t true (acc ++ [lbChar]) := by
  rw [bodyCands]
  simp only [if_neg (by decide : ¬(lbChar = rbChar)), if_pos rfl]
  simp

theorem bodyCands_close_in (t : Str) (acc : Str) :
    bodyCands (rbChar :: t) true acc = (acc, t) :: bodyCands t false (acc ++ [rbChar]) := by
  rw [bodyCands]
  simp

theorem bodyCands_close_out (t : Str) (acc : Str) :
    bodyCands (rbChar :: t) false acc = [(acc, t)] := by
  rw [bodyCands]
  simp

/-- With a brace-free body the pattern's body group has a single
possible extent: up to the closing `}`. -/
theorem bodyCands_flat {body : Str} (hb : ∀ c ∈ body, c ≠ lbChar ∧ c ≠ rbChar)
    (r : Str) (acc : Str) :
    bodyCands (body ++ rbChar :: r) false acc = [(acc ++ body, r)] := by
  rw [bodyCands_skip hb, bodyCands_close_out]

/-- With one nested brace pair there are two candidate extents; the
longer one covers the whole body including the pair. -/
theorem bodyCands_nested {b1 b2 b3 : Str}
    (h1 : ∀ c ∈ b1, c ≠ lbChar ∧ c ≠ rbChar)
    (h2 : ∀ c ∈ b2, c ≠ lbChar ∧ c ≠ rbChar)
    (h3 : ∀ c ∈ b3, c ≠ lbChar ∧ c ≠ rbChar)
    (r : Str) (acc : Str) :
    bodyCands (b1 ++ (lbChar :: b2 ++ (rbChar :: b3 ++ rbChar :: r))) false acc =
      [(acc ++ b1 ++ lbChar :: b2, b3 ++ rbChar :: r),
       (acc ++ b1 ++ lbChar :: b2 ++ rbChar :: b3, r)] := by
  simp only [List.cons_append, List.append_assoc]
  rw [bodyCands_skip h1, bodyCands_open, bodyCands_skip h2, bodyCands_close_in,
    bodyCands_skip h3, bodyCands_close_out]
  simp [List.append_assoc]

theorem pickBody1_flat {body : Str} (hb : ∀ c ∈ body, c ≠ lbChar ∧ c ≠ rbChar) (suf : Str) :
    pickBody1 (body ++ rbChar :: ')' :: suf) = some (body, suf) := by
  rw [pickBody1, bodyCands_flat hb (')' :: suf) []]
  simp [List.find?, startsRParen]

/-- With one nested brace pair the engine first tries the short body
ending at the pair's `}`; only when that candidate is not followed by
`)` (the `hb3` hypothesis) does backtracking extend the capture to the
whole body including the pair. -/
theorem pickBody1_nested {b1 b2 b3 : Str}
    (h1 : ∀ c ∈ b1, c ≠ lbChar ∧ c ≠ rbChar)
    (h2 : ∀ c ∈ b2, c ≠ lbChar ∧ c ≠ rbChar)
    (h3 : ∀ c ∈ b3, c ≠ lbChar ∧ c ≠ rbChar) (suf : Str)
    (hb3 : startsRParen (b3 ++ rbChar :: ')' :: suf) = false) :
    pickBody1 ((b1 ++ lbChar :: b2 ++ rbChar :: b3) ++ rbChar :: ')' :: suf) =
      some (b1 ++ lbChar :: b2 ++ rbChar :: b3, suf) := by
  have hbc := bodyCands_nested h1 h2 h3 (')' :: suf) []
  rw [pickBody1]
  simp only [List.append_assoc, List.cons_append, List.nil_append] at hbc hb3 ⊢
  rw [hbc]
  rw [List.find?]
  simp only [hb3]
  simp [List.find?, startsRParen]

/-- Every candidate split reassembles to the scanned text. -/
theorem bodyCands_mem :
    ∀ (s : Str) (flag : Bool) (acc : Str) (q : Str × Str),
    q ∈ bodyCands s flag acc → acc ++ s = q.1 ++ rbChar :: q.2 := by
  intro s
  induction s with
  | nil => intro flag acc q h; simp [bodyCands] at h
  | cons c cs ih =>
    intro flag acc q h
    rw [bodyCands] at h
    by_cases hc : c = rbChar
    · subst hc
      rw [if_pos rfl] at h
      cases flag with
      | true =>
        rcases List.mem_cons.mp h with h | h
        · subst h; rfl
        · have := ih false (acc ++ [rbChar]) q h
          simpa using this
      | false =>
        rcases List.mem_singleton.mp h with rfl
        rfl
    · rw [if_neg hc] at h
      by_cases hl : c = lbChar
      · rw [if_pos hl] at h
        have := ih true (acc ++ [c]) q h
        simpa using this
      · rw [if_neg hl] at h
        have := ih flag (acc ++ [c]) q h
        simpa using this

theorem startsRParen_true {s : Str} (h : startsRParen s = true) : ∃ t, s = ')' :: t := by
  cases s with
  | nil => simp [startsRParen] at h
  | cons c t =>
    simp only [startsRParen, decide_eq_true_eq] at h
    exact ⟨t, by rw [h]⟩

theorem itLit_cons (x : Str) : 'i' :: 't' :: '(' :: x = itLit ++ x := by
  rw [show itLit = ['i', 't', '('] by decide]
  rfl

theorem parLit_cons (x : Str) : '(' :: ')' :: x = parLit ++ x := by
  rw [show parLit = ['(', ')'] by decide]
  rfl

theorem arrLit_cons (x : Str) : '=' :: '>' :: x = arrLit ++ x := by
  rw [show arrLit = ['=', '>'] by decide]
  rfl

theorem pickBody1_some {s : Str} {b r : Str} (h : pickBody1 s = some (b, r)) :
    s = b ++ rbChar :: ')' :: r := by
  rw [pickBody1] at h
  cases hf : (bodyCands s false []).find? fun q => startsRParen q.2 with
  | none => rw [hf] at h; simp at h
  | some q =>
    rw [hf] at h
    have hmem : q ∈ bodyCands s false [] := List.mem_of_find?_eq_some hf
    have hpred : startsRParen q.2 = true := by simpa using List.find?_some hf
    have hs : ([] : Str) ++ s = q.1 ++ rbChar :: q.2 := bodyCands_mem s false [] q hmem
    obtain ⟨t2, ht2⟩ := startsRParen_true hpred
    have h' : some (q.1, q.2.tail) = some (b, r) := h
    rw [ht2] at hs h'
    simp only [Option.some.injEq, Prod.mk.injEq, List.tail_cons] at h'
    obtain ⟨rfl, rfl⟩ := h'
    simpa using hs

/-- The convert-tests.py pattern matches a well-formed occurrence at the
start of the input, capturing exactly the expected groups.  The body
region is summarised by its `pickBody1` result so that both the
brace-free and the one-nested-pair shapes instantiate this lemma. -/
theorem matchIt1_structured
    {ind name w1 w2 w3 region bo re : Str}
    (hind : ∀ c ∈ ind, isSpace c = true)
    (hne : name ≠ [])
    (hname : ∀ c ∈ name, notComma c = true)
    (hw1 : ∀ c ∈ w1, isSpace c = true)
    (hw2 : ∀ c ∈ w2, isSpace c = true)
    (hw3 : ∀ c ∈ w3, isSpace c = true)
    (hpb : pickBody1 region = some (bo, re)) :
    matchIt1 (ind ++ 'i' :: 't' :: '(' ::
      (name ++ ',' :: (w1 ++ '(' :: ')' :: (w2 ++ '=' :: '>' :: (w3 ++ lbChar :: region))))) =
      some ⟨ind, name, w1, w2, w3, bo, re⟩ := by
  have hne' : name.isEmpty = false := by cases name with
    | nil => exact absurd rfl hne
    | cons a l => rfl
  have e1 := takeWhile_all_cons (p := isSpace) 'i'
    (('t' :: '(' :: (name ++ ',' :: (w1 ++ '(' :: ')' ::
      (w2 ++ '=' :: '>' :: (w3 ++ lbChar :: region)))))) hind (by decide)
  have e2 := dropWhile_all_cons (p := isSpace) 'i'
    (('t' :: '(' :: (name ++ ',' :: (w1 ++ '(' :: ')' ::
      (w2 ++ '=' :: '>' :: (w3 ++ lbChar :: region)))))) hind (by decide)
  have e3 : dropLit itLit ('i' :: 't' :: '(' ::
      (name ++ ',' :: (w1 ++ '(' :: ')' :: (w2 ++ '=' :: '>' :: (w3 ++ lbChar :: region))))) =
      some (name ++ ',' :: (w1 ++ '(' :: ')' :: (w2 ++ '=' :: '>' :: (w3 ++ lbChar :: region)))) := by
    rw [itLit_cons]; exact dropLit_append _ _
  have e4 := takeWhile_all_cons (p := notComma) ','
    ((w1 ++ '(' :: ')' :: (w2 ++ '=' :: '>' :: (w3 ++ lbChar :: region)))) hname (by decide)
  have e5 := dropWhile_all_cons (p := notComma) ','
    ((w1 ++ '(' :: ')' :: (w2 ++ '=' :: '>' :: (w3 ++ lbChar :: region)))) hname (by decide)
  have e6 := takeWhile_all_cons (p := isSpace) '('
    ((')' :: (w2 ++ '=' :: '>' :: (w3 ++ lbChar :: region)))) hw1 (by decide)
  have e7 := dropWhile_all_cons (p := isSpace) '('
    ((')' :: (w2 ++ '=' :: '>' :: (w3 ++ lbChar :: region)))) hw1 (by decide)
  have e8 : dropLit parLit ('(' :: ')' :: (w2 ++ '=' :: '>' :: (w3 ++ lbChar :: region))) =
      some (w2 ++ '=' :: '>' :: (w3 ++ lbChar :: region)) := by
    rw [parLit_cons]; exact dropLit_append _ _
  have e9 := takeWhile_all_cons (p := isSpace) '='
    (('>' :: (w3 ++ lbChar :: region))) hw2 (by decide)
  have e10 := dropWhile_all_cons (p := isSpace) '='
    (('>' :: (w3 ++ lbChar :: region))) hw2 (by decide)
  have e11 : dropLit arrLit ('=' :: '>' :: (w3 ++ lbChar :: region)) =
      some (w3 ++ lbChar :: region) := by
    rw [arrLit_cons]; exact dropLit_append _ _
  have e12 := takeWhile_all_cons (p := isSpace) lbChar region hw3 (by decide)
  have e13 := dropWhile_all_cons (p := isSpace) lbChar region hw3 (by decide)
  simp only [matchIt1, e1, e2, e3, e4, e5, hne', Bool.false_eq_true, if_false,
    e6, e7, e8, e9, e10, e11, e12, e13, hpb]
  simp [hpb]

/-- A successful match of the convert-tests.py pattern decomposes the
input into the matched region and the remainder (so in particular the
remainder is strictly shorter, and the input contains `it(`). -/
theorem matchIt1_decomp {s : Str} {g : M1} (h : matchIt1 s = some g) :
    s = s.takeWhile isSpace ++ itLit ++ g.name ++ ',' :: g.w1 ++ parLit ++ g.w2 ++
      arrLit ++ g.w3 ++ lbChar :: g.body ++ rbChar :: ')' :: g.rest := by
  simp only [matchIt1] at h
  cases e3 : dropLit itLit (List.dropWhile isSpace s) with
  | none => rw [e3] at h; simp at h
  | some s2 =>
  rw [e3] at h
  simp only [] at h
  cases e4 : (List.takeWhile notComma s2).isEmpty with
  | true => rw [e4] at h; simp at h
  | false =>
  rw [e4] at h
  simp only [Bool.false_eq_true, if_false] at h
  cases e5 : List.dropWhile notComma s2 with
  | nil => rw [e5] at h; simp at h
  | cons c0 s4 =>
  rw [e5] at h
  by_cases hc0 : c0 = ','
  case neg => simp [hc0] at h
  subst hc0
  simp only [] at h
  cases e8 : dropLit parLit (List.dropWhile isSpace s4) with
  | none => rw [e8] at h; simp at h
  | some s6 =>
  rw [e8] at h
  simp only [] at h
  cases e11 : dropLit arrLit (List.dropWhile isSpace s6) with
  | none => rw [e11] at h; simp at h
  | some s8 =>
  rw [e11] at h
  simp only [] at h
  cases e13 : List.dropWhile isSpace s8 with
  | nil => rw [e13] at h; simp at h
  | cons c s10 =>
  rw [e13] at h
  simp only [] at h
  by_cases hlb : c = lbChar
  case neg => rw [if_neg hlb] at h; simp at h
  rw [if_pos hlb] at h
  subst hlb
  cases epb : pickBody1 s10 with
  | none => rw [epb] at h; simp at h
  | some q =>
  rw [epb] at h
  obtain ⟨b0, r0⟩ := q
  simp only [Option.some.injEq] at h
  subst h
  dsimp only
  conv_lhs => rw [← List.takeWhile_append_dropWhile (p := isSpace) (l := s), dropLit_some e3,
    ← List.takeWhile_append_dropWhile (p := notComma) (l := s2), e5,
    ← List.takeWhile_append_dropWhile (p := isSpace) (l := s4), dropLit_some e8,
    ← List.takeWhile_append_dropWhile (p := isSpace) (l := s6), dropLit_some e11,
    ← List.takeWhile_append_dropWhile (p := isSpace) (l := s8), e13, pickBody1_some epb]
  simp [List.append_assoc]

theorem itLit_len : itLit.length = 3 := by decide

theorem parLit_len : parLit.length = 2 := by decide

theorem arrLit_len : arrLit.length = 2 := by decide

/-- Soundness of the substitution matcher: the remainder is strictly
shorter than the input (needed by the generic scan lemmas). -/
theorem mr1_sound : ∀ s r, mr1 s = some r → r.rest.length < s.length := by
  intro s r h
  rw [mr1] at h
  cases hm : matchIt1 s with
  | none => rw [hm] at h; simp at h
  | some g =>
    rw [hm] at h
    simp only [Option.map_some'] at h
    obtain rfl := Option.some.inj h
    have hd := congrArg List.length (matchIt1_decomp hm)
    simp only [List.length_append, List.length_cons, itLit_len, parLit_len, arrLit_len] at hd
    dsimp only
    omega

/-- A successful match of the convert-tests.py pattern means the input
contains the literal `it(`. -/
theorem matchIt1_some_it {s : Str} {g : M1} (h : matchIt1 s = some g) :
    ∃ a b, s = a ++ itLit ++ b := by
  have hd := matchIt1_decomp h
  refine ⟨List.takeWhile isSpace s, g.name ++ ',' :: g.w1 ++ parLit ++ g.w2 ++ arrLit ++
    g.w3 ++ lbChar :: g.body ++ rbChar :: ')' :: g.rest, ?_⟩
  conv_lhs => rw [hd]
  simp [List.append_assoc]

theorem matchIt1_nil : matchIt1 [] = none := by decide

/-- If the input nowhere contains `it(`, the pattern matches nowhere. -/
theorem matchIt1_none_of_no_it {c : Str} (hns : hasSub c itLit = false) (p : Nat) :
    matchIt1 (c.drop p) = none := by
  cases hm : matchIt1 (c.drop p) with
  | none => rfl
  | some g =>
    obtain ⟨a, b, hab⟩ := matchIt1_some_it hm
    have : c = (c.take p ++ a) ++ itLit ++ b := by
      conv_lhs => rw [← List.take_append_drop p c, hab]
      simp [List.append_assoc]
    exact absurd this (not_hasSub hns)

/-- A successful `from\s*'vitest'` check means the text contains the
literal `'vitest'`. -/
theorem fromVitCheck_some {t : Str} {n : Nat} (h : fromVitCheck t = some n) :
    ∃ a b, t = a ++ toL "'vitest'" ++ b := by
  simp only [fromVitCheck] at h
  cases e1 : dropLit (toL "from") t with
  | none => rw [e1] at h; simp at h
  | some t1 =>
  rw [e1] at h
  simp only [] at h
  cases e2 : dropLit (toL "'vitest'") (List.dropWhile isSpace t1) with
  | none => rw [e2] at h; simp at h
  | some t2 =>
    refine ⟨toL "from" ++ List.takeWhile isSpace t1, t2, ?_⟩
    conv_lhs => rw [dropLit_some e1,
      ← List.takeWhile_append_dropWhile (p := isSpace) (l := t1), dropLit_some e2]
    simp [List.append_assoc]

/-- A successful match of `import.*from\s*'vitest'` means the text
contains the literal `'vitest'`. -/
theorem vitAt_some_vitest {s : Str} {n : Nat} (h : vitAt s = some n) :
    ∃ a b, s = a ++ toL "'vitest'" ++ b := by
  simp only [vitAt] at h
  cases e1 : dropLit (toL "import") s with
  | none => rw [e1] at h; simp at h
  | some r =>
  rw [e1] at h
  simp only [] at h
  cases e2 : (List.range ((List.takeWhile (fun c => !decide (c = '\n')) r).length + 1)).reverse.find?
      (fun k => (fromVitCheck (r.drop k)).isSome) with
  | none => rw [e2] at h; simp at h
  | some k =>
  rw [e2] at h
  have hk : (fromVitCheck (r.drop k)).isSome = true := by simpa using List.find?_some e2
  cases e3 : fromVitCheck (r.drop k) with
  | none => rw [e3] at hk; simp at hk
  | some m =>
    obtain ⟨a, b, hab⟩ := fromVitCheck_some e3
    refine ⟨toL "import" ++ (r.take k ++ a), b, ?_⟩
    conv_lhs => rw [dropLit_some e1, ← List.take_append_drop k r, hab]
    simp [List.append_assoc]

/-- A successful match of `import_pattern` means the text contains the
literal `'vitest'`. -/
theorem mImpAt_some_vitest {s : Str} {x : SubM} (h : mImpAt s = some x) :
    ∃ a b, s = a ++ toL "'vitest'" ++ b := by
  simp only [mImpAt] at h
  cases e1 : dropLit (toL "import") s with
  | none => rw [e1] at h; simp at h
  | some r1 =>
  rw [e1] at h
  simp only [] at h
  cases e2 : List.dropWhile isSpace r1 with
  | nil => rw [e2] at h; simp at h
  | cons c r3 =>
  rw [e2] at h
  simp only [] at h
  by_cases hc : c = lbChar
  case neg => rw [if_neg hc] at h; simp at h
  rw [if_pos hc] at h
  cases e3 : List.dropWhile notRb r3 with
  | nil => rw [e3] at h; simp at h
  | cons c2 r5 =>
  rw [e3] at h
  simp only [] at h
  by_cases hc2 : c2 = rbChar
  case neg => rw [if_neg hc2] at h; simp at h
  rw [if_pos hc2] at h
  cases e4 : dropLit (toL "from") (List.dropWhile isSpace r5) with
  | none => rw [e4] at h; simp at h
  | some r7 =>
  rw [e4] at h
  simp only [] at h
  cases e5 : dropLit (toL "'vitest'") (List.dropWhile isSpace r7) with
  | none => rw [e5] at h; simp at h
  | some r9 =>
    refine ⟨toL "import" ++ List.takeWhile isSpace r1 ++ c :: (List.takeWhile notRb r3 ++
      c2 :: (List.takeWhile isSpace r5 ++ toL "from" ++ List.takeWhile isSpace r7)), r9, ?_⟩
    conv_lhs => rw [dropLit_some e1,
      ← List.takeWhile_append_dropWhile (p := isSpace) (l := r1), e2,
      ← List.takeWhile_append_dropWhile (p := notRb) (l := r3), e3,
      ← List.takeWhile_append_dropWhile (p := isSpace) (l := r5), dropLit_some e4,
      ← List.takeWhile_append_dropWhile (p := isSpace) (l := r7), dropLit_some e5]
    simp [List.append_assoc]

/-- Without `'vitest'` in the text, `import_pattern` matches nowhere. -/
theorem existsMatchAt_mImpAt_false {r : Str} (h : hasSub r (toL "'vitest'") = false) :
    existsMatchAt mImpAt r = false := by
  rw [existsMatchAt, List.any_eq_false]
  intro p _
  cases hm : mImpAt (r.drop p) with
  | none => simp
  | some x =>
    obtain ⟨a, b, hab⟩ := mImpAt_some_vitest hm
    have : r = (r.take p ++ a) ++ toL "'vitest'" ++ b := by
      conv_lhs => rw [← List.take_append_drop p r, hab]
      simp [List.append_assoc]
    exact absurd this (not_hasSub h)

/-- Without `'vitest'` in the text, `re.search(r"import.*from\s*'vitest'")`
fails. -/
theorem searchVit_none {r : Str} (h : hasSub r (toL "'vitest'") = false) :
    searchVit r = none := by
  rw [searchVit]
  have hf : (List.range (r.length + 1)).find? (fun p => (vitAt (r.drop p)).isSome) = none := by
    rw [List.find?_eq_none]
    intro p _
    cases hm : vitAt (r.drop p) with
    | none => simp
    | some n =>
      obtain ⟨a, b, hab⟩ := vitAt_some_vitest hm
      have : r = (r.take p ++ a) ++ toL "'vitest'" ++ b := by
        conv_lhs => rw [← List.take_append_drop p r, hab]
        simp [List.append_assoc]
      exact absurd this (not_hasSub h)
  rw [hf]

/-- The import step of convert-tests.py leaves text without `'vitest'`
and without `from 'effect'` unchanged. -/
theorem importStep1_id {r : Str} (h1 : hasSub r (toL "'vitest'") = false)
    (h2 : hasSub r (toL "from 'effect'") = false) : importStep1 r = r := by
  rw [importStep1]
  cases hg : !hasSub r (toL "import \x7b Effect") && hasSub r (toL "Effect.gen") with
  | false => simp
  | true =>
    simp only [if_true]
    rw [existsMatchAt_mImpAt_false h1]
    simp only [Bool.false_eq_true, if_false]
    rw [h2]
    simp only [Bool.false_eq_true, if_false]
    rw [searchVit_none h1]

/-- Full behaviour of `convert_it_to_effect` of convert-tests.py on an
input consisting of a prefix, one well-formed occurrence of the
`it(...)` pattern, and a suffix, when the pattern matches nowhere in the
prefix or the suffix and the import step does not fire: the occurrence
is replaced by `replace_match`'s output and nothing else changes. -/
theorem convert1_structured (pre ind name w1 w2 w3 region bo re : Str)
    (hind : ∀ c ∈ ind, isSpace c = true)
    (hne : name ≠ [])
    (hname : ∀ c ∈ name, notComma c = true)
    (hw1 : ∀ c ∈ w1, isSpace c = true)
    (hw2 : ∀ c ∈ w2, isSpace c = true)
    (hw3 : ∀ c ∈ w3, isSpace c = true)
    (hpb : pickBody1 region = some (bo, re))
    (hpre : ∀ p < pre.length, matchIt1 ((pre ++ (ind ++ 'i' :: 't' :: '(' ::
      (name ++ ',' :: (w1 ++ '(' :: ')' :: (w2 ++ '=' :: '>' ::
        (w3 ++ lbChar :: region)))))).drop p) = none)
    (hre : ∀ p < re.length + 1, matchIt1 (re.drop p) = none)
    (hv : hasSub (pre ++ repl1 ind name bo ++ re) (toL "'vitest'") = false)
    (he : hasSub (pre ++ repl1 ind name bo ++ re) (toL "from 'effect'") = false) :
    convert1 (pre ++ (ind ++ 'i' :: 't' :: '(' :: (name ++ ',' :: (w1 ++ '(' :: ')' ::
      (w2 ++ '=' :: '>' :: (w3 ++ lbChar :: region)))))) =
      pre ++ repl1 ind name bo ++ re := by
  have hocc := matchIt1_structured hind hne hname hw1 hw2 hw3 hpb
  have hmr : mr1 (ind ++ 'i' :: 't' :: '(' :: (name ++ ',' :: (w1 ++ '(' :: ')' ::
      (w2 ++ '=' :: '>' :: (w3 ++ lbChar :: region))))) =
      some ⟨repl1 ind name bo, re⟩ := by
    rw [mr1, hocc]; rfl
  have hscan := subAll_scan (m := mr1) pre
    (ind ++ 'i' :: 't' :: '(' :: (name ++ ',' :: (w1 ++ '(' :: ')' ::
      (w2 ++ '=' :: '>' :: (w3 ++ lbChar :: region)))))
    (fun p hp => by simp [mr1, hpre p hp])
  have hm2 : subAll mr1 (ind ++ 'i' :: 't' :: '(' :: (name ++ ',' :: (w1 ++ '(' :: ')' ::
      (w2 ++ '=' :: '>' :: (w3 ++ lbChar :: region))))) =
      repl1 ind name bo ++ subAll mr1 re := subAll_match mr1_sound hmr
  have hnm : subAll mr1 re = re := subAll_nomatch fun p => by
    by_cases hp : p < re.length + 1
    · simp [mr1, hre p hp]
    · rw [List.drop_eq_nil_of_le (by omega)]
      simp [mr1, matchIt1_nil]
  rw [List.append_assoc] at hv he
  rw [convert1, hscan, hm2, hnm, importStep1_id hv he]
  simp [List.append_assoc]

end S1

namespace S2

theorem matchIt2a_some_it {s : Str} {g : M2a} (h : matchIt2a s = some g) :
    ∃ a b, s = a ++ itLit ++ b := by
  simp only [matchIt2a] at h
  cases e : dropLit itLit (List.dropWhile isSpace s) with
  | none => rw [e] at h; simp at h
  | some s2 =>
    refine ⟨s.takeWhile isSpace, s2, ?_⟩
    conv_lhs => rw [← List.takeWhile_append_dropWhile (p := isSpace) (l := s), dropLit_some e]
    simp [List.append_assoc]

theorem matchIt2b_some_it {s : Str} {g : M2b} (h : matchIt2b s = some g) :
    ∃ a b, s = a ++ itLit ++ b := by
  simp only [matchIt2b] at h
  cases e : dropLit itLit (List.dropWhile isSpace s) with
  | none => rw [e] at h; simp at h
  | some s2 =>
    refine ⟨s.takeWhile isSpace, s2, ?_⟩
    conv_lhs => rw [← List.takeWhile_append_dropWhile (p := isSpace) (l := s), dropLit_some e]
    simp [List.append_assoc]

theorem matchIt2a_none_of_no_it {c : Str} (hns : hasSub c itLit = false) (p : Nat) :
    matchIt2a (c.drop p) = none := by
  cases hm : matchIt2a (c.drop p) with
  | none => rfl
  | some g =>
    obtain ⟨a, b, hab⟩ := matchIt2a_some_it hm
    have : c = (c.take p ++ a) ++ itLit ++ b := by
      conv_lhs => rw [← List.take_append_drop p c, hab]
      simp [List.append_assoc]
    exact absurd this (not_hasSub hns)

theorem matchIt2b_none_of_no_it {c : Str} (hns : hasSub c itLit = false) (p : Nat) :
    matchIt2b (c.drop p) = none := by
  cases hm : matchIt2b (c.drop p) with
  | none => rfl
  | some g =>
    obtain ⟨a, b, hab⟩ := matchIt2b_some_it hm
    have : c = (c.take p ++ a) ++ itLit ++ b := by
      conv_lhs => rw [← List.take_append_drop p c, hab]
      simp [List.append_assoc]
    exact absurd this (not_hasSub hns)

/-- `convert_it_to_effect` of the effect-vitest script returns inputs
already containing the target marker unchanged (its line 14 guard). -/
theorem convert2_of_marker {c : Str} (h : hasSub c (toL "it.effect(") = true) :
    convert2 c = c := by
  rw [convert2, h]
  simp

/-- `fix_imports` returns contents without the target marker unchanged
(its line 85 guard). -/
theorem fixImports2_of_no_marker {c : Str} (h : hasSub c (toL "it.effect(") = false) :
    fixImports2 c = c := by
  rw [fixImports2, h]
  simp

/-- Without the literal `it(` anywhere, neither substitution pass can
fire, and `convert_it_to_effect` is the identity. -/
theorem convert2_of_no_it {c : Str} (h : hasSub c itLit = false) : convert2 c = c := by
  cases hm : hasSub c (toL "it.effect(") with
  | true => exact convert2_of_marker hm
  | false =>
    rw [convert2, hm]
    simp only [Bool.false_eq_true, if_false]
    have ha : pass2a c = c := by
      rw [pass2a]
      exact subAll_nomatch fun p => by
        simp [mr2a, matchIt2a_none_of_no_it h p]
    have hb : pass2b c = c := by
      rw [pass2b]
      exact subAll_nomatch fun p => by
        simp [mr2b, matchIt2b_none_of_no_it h p]
    rw [ha, hb, fixImports2_of_no_marker hm]

/-- Lines matching neither import pattern pass through the
`fix_imports` loop unchanged, leaving the flags untouched. -/
theorem fixLoop_passthrough {ls : List Str}
    (h : ∀ l ∈ ls, vitestLine l = false ∧ effectLine l = false) (v ev e : Bool) :
    fixLoop ls v ev e = (ls, v, ev, e) := by
  induction ls with
  | nil => rfl
  | cons l ls ih =>
    have hl := h l (by simp)
    rw [fixLoop, hl.1, hl.2]
    simp only [Bool.false_eq_true, if_false]
    rw [ih (fun x hx => h x (by simp [hx]))]

/-- The `fix_imports` loop distributes over a prefix of lines matching
neither import pattern. -/
theorem fixLoop_prefix {pre : List Str}
    (h : ∀ l ∈ pre, vitestLine l = false ∧ effectLine l = false) (rest : List Str)
    (v ev e : Bool) :
    fixLoop (pre ++ rest) v ev e =
      (pre ++ (fixLoop rest v ev e).1, (fixLoop rest v ev e).2) := by
  induction pre with
  | nil => simp
  | cons l pre ih =>
    have hl := h l (by simp)
    rw [List.cons_append, fixLoop, hl.1, hl.2]
    simp only [Bool.false_eq_true, if_false]
    rw [ih (fun x hx => h x (by simp [hx]))]
    simp

end S2

/-- The per-line loop of `replace_match` (convert-tests.py) is a map. -/
theorem indentLines1_eq_map (ls : List Str) :
    S1.indentLines1 ls = ls.map fun l => if isBlankLine l then l else ' ' :: ' ' :: l := by
  induction ls with
  | nil => rfl
  | cons l ls ih => rw [S1.indentLines1, ih]; rfl

/-- The per-line loop of `replace_it_test`/`replace_complex_it`
(convert-tests-effect-vitest.py) is a map. -/
theorem indentLines2_eq_map (ls : List Str) :
    S2.indentLines2 ls =
      ls.map fun l => if isBlankLine l then [] else toL "      " ++ l.dropWhile isSpace := by
  induction ls with
  | nil => rfl
  | cons l ls ih => rw [S2.indentLines2, ih]; rfl

/-! ### Claims -/

set_option maxRecDepth 40000

/-- C1, counterexample: the claim asserts that both scripts return an
input containing `it.effect(` unchanged, but `convert_it_to_effect` of
convert-tests.py has no such guard: on an input that contains
`it.effect(` and also a legacy `it(...)` call, it rewrites the call, so
the output differs from the input. -/
theorem c1_counterexample :
    hasSub (toL "it.effect(x)\nit('a', () => \x7b b \x7d)") (toL "it.effect(") = true ∧
    S1.convert1 (toL "it.effect(x)\nit('a', () => \x7b b \x7d)") ≠
      toL "it.effect(x)\nit('a', () => \x7b b \x7d)" := by
  constructor
  · decide
  · decide

/-- C1 (amended): for every input string that already contains the
target marker `it.effect(`, `convert_it_to_effect` of
convert-tests-effect-vitest.py returns its input unchanged; the claim
fails for convert-tests.py (see the counterexample). -/
theorem c1_theorem (c : Str) (h : hasSub c (toL "it.effect(") = true) :
    S2.convert2 c = c :=
  S2.convert2_of_marker h

/-- Witness for C1 at a concrete input. -/
theorem c1_witness :
    hasSub (toL "describe('x')\nit.effect('y')") (toL "it.effect(") = true ∧
    S2.convert2 (toL "describe('x')\nit.effect('y')") = toL "describe('x')\nit.effect('y')" :=
  ⟨by decide, c1_theorem _ (by decide)⟩

/-- C3, counterexample: the claimed reindentation rule (two additional
spaces keeping each non-blank line's own leading whitespace; blank lines
emitted empty) disagrees with both scripts.  The effect-vitest script
left-strips every non-blank line and prepends six spaces, so the line
`    b` loses its relative indentation; convert-tests.py keeps
whitespace-only lines as they are instead of emitting empty lines. -/
theorem c3_counterexample :
    S2.reindent2 (toL "a\n    b") ≠ reindentClaim3 (toL "a\n    b") ∧
    S1.reindent1 (toL "a\n  \nb") ≠ reindentClaim3 (toL "a\n  \nb") ∧
    S2.reindent2 (toL "a\n    b") = toL "      a\n      b" ∧
    S1.reindent1 (toL "a\n  \nb") = toL "  a\n  \n  b" := by
  refine ⟨by decide, by decide, by decide, by decide⟩

/-- C3 (amended): the body processing of `replace_match`
(convert-tests.py) strips the body as a whole and then adds two spaces
to every line with non-whitespace content, keeping all other lines
(including whitespace-only ones) exactly as they are; the body
processing of `replace_it_test` (effect-vitest script) strips the body,
left-strips every non-blank line and prepends six spaces, and emits
blank lines as empty; `replace_complex_it` applies the same per-line
rule without first stripping the body as a whole. -/
theorem c3_theorem (body : Str) :
    S1.reindent1 body = List.intercalate ['\n'] (((stripStr body).splitOn '\n').map fun l =>
      if isBlankLine l then l else ' ' :: ' ' :: l) ∧
    S2.reindent2 body = List.intercalate ['\n'] (((stripStr body).splitOn '\n').map fun l =>
      if isBlankLine l then [] else toL "      " ++ l.dropWhile isSpace) ∧
    S2.reindent2b body = List.intercalate ['\n'] ((body.splitOn '\n').map fun l =>
      if isBlankLine l then [] else toL "      " ++ l.dropWhile isSpace) := by
  refine ⟨?_, ?_, ?_⟩
  · rw [S1.reindent1, indentLines1_eq_map]
  · rw [S2.reindent2, indentLines2_eq_map]
  · rw [S2.reindent2b, indentLines2_eq_map]

/-- C5, counterexample: `fix_imports` is not idempotent.  On content
containing `it.effect(` and a vitest import line, a second application
inserts a duplicate `import { it } from '@effect/vitest'` line, because
the loop's `effect_vitest_import_found` flag is only set when the line
is inserted, never when it is already present. -/
theorem c5_counterexample :
    S2.fixImports2 (S2.fixImports2
        (toL "import \x7b it, describe, expect \x7d from 'vitest'\nit.effect('a')")) ≠
      S2.fixImports2 (toL "import \x7b it, describe, expect \x7d from 'vitest'\nit.effect('a')") := by
  decide

/-- C5 (amended): `fix_imports` is idempotent on every input that does
not contain the target marker `it.effect(` (it returns such inputs
unchanged); in general a second application can insert a duplicate
vitest-replacement line (see the counterexample). -/
theorem c5_theorem (c : Str) (h : hasSub c (toL "it.effect(") = false) :
    S2.fixImports2 (S2.fixImports2 c) = S2.fixImports2 c := by
  rw [S2.fixImports2_of_no_marker h, S2.fixImports2_of_no_marker h]

/-- Witness for C5 at a concrete input. -/
theorem c5_witness :
    S2.fixImports2 (S2.fixImports2 (toL "const x = 1")) = S2.fixImports2 (toL "const x = 1") :=
  c5_theorem _ (by decide)

/-- C7: when reading raises, `process_file` (in both scripts) catches
the exception, prints one message containing the file path and the
error, and returns `False`; when writing raises it likewise returns
`False`.  No exception escapes: the model is a total function. -/
theorem c7_theorem (path e c e2 : Str) (w : Except Str Unit) :
    S1.processFile1 path (.error e) w = ⟨false, none, [S1.errMsg path e]⟩ ∧
    S2.processFile2 path (.error e) w = ⟨false, none, [S1.errMsg path e]⟩ ∧
    (S1.processFile1 path (.ok c) (.error e2)).returned = false ∧
    (S1.processFile1 path (.ok c) (.error e2)).written = none ∧
    (S2.processFile2 path (.ok c) (.error e2)).returned = false ∧
    (S2.processFile2 path (.ok c) (.error e2)).written = none := by
  refine ⟨rfl, rfl, ?_, ?_, ?_, ?_⟩ <;>
    · simp only [S1.processFile1, S2.processFile2]
      split <;> first | rfl | (split <;> rfl)

/-- C8, counterexample: the claim "process_file overwrites a file iff
the converted content differs" fails for convert-tests.py: on content
without `it(` but containing `Effect.gen` and a sloppy vitest import,
`convert_it_to_effect` would change the content (its import step fires),
yet `process_file` skips the file without writing because of its
`'it(' not in content` guard. -/
theorem c8_counterexample :
    hasSub (toL "Effect.gen\nimport \x7b a \x7d  from 'vitest'") itLit = false ∧
    S1.convert1 (toL "Effect.gen\nimport \x7b a \x7d  from 'vitest'") ≠
      toL "Effect.gen\nimport \x7b a \x7d  from 'vitest'" ∧
    (S1.processFile1 (toL "f.spec.ts")
      (.ok (toL "Effect.gen\nimport \x7b a \x7d  from 'vitest'")) (.ok ())).written = none := by
  refine ⟨by decide, by decide, by decide⟩

/-- C8 (amended): with I/O succeeding, `process_file` of the
effect-vitest script writes iff its conversion changes the content;
`process_file` of convert-tests.py writes iff the content contains
`it(` and its conversion changes the content. -/
theorem c8_theorem (c path : Str) :
    ((S2.processFile2 path (.ok c) (.ok ())).written ≠ none ↔ S2.convert2 c ≠ c) ∧
    ((S1.processFile1 path (.ok c) (.ok ())).written ≠ none ↔
      hasSub c itLit = true ∧ S1.convert1 c ≠ c) := by
  constructor
  · simp only [S2.processFile2]
    cases hg : (!hasSub c itLit || hasSub c (toL "it.effect(")) with
    | true =>
      have hcc : S2.convert2 c = c := by
        cases ha : hasSub c itLit with
        | false => exact S2.convert2_of_no_it ha
        | true =>
          rw [ha] at hg
          simp only [Bool.not_true, Bool.false_or] at hg
          exact S2.convert2_of_marker hg
      simp [hcc]
    | false =>
      by_cases hcc : S2.convert2 c = c
      · simp [hcc]
      · simp [hcc]
  · simp only [S1.processFile1]
    cases ha : hasSub c itLit with
    | false => simp
    | true =>
      by_cases hcc : S1.convert1 c = c
      · simp [hcc]
      · simp [hcc]

/-- C6, counterexample: an input with no occurrence of the legacy
pattern (the convert-tests.py matcher fails at every position) is not
returned unchanged by convert-tests.py: because the input contains
`Effect.gen` without an `import { Effect` line, the import step fires
and rewrites/extends the import lines, and `process_file` then reports
the file as converted and writes it. -/
theorem c6_counterexample :
    (∀ p < (toL "it(\nEffect.gen\nimport \x7b a \x7d from 'vitest'").length + 1,
      S1.matchIt1 ((toL "it(\nEffect.gen\nimport \x7b a \x7d from 'vitest'").drop p) = none) ∧
    S1.convert1 (toL "it(\nEffect.gen\nimport \x7b a \x7d from 'vitest'") ≠
      toL "it(\nEffect.gen\nimport \x7b a \x7d from 'vitest'" ∧
    (S1.processFile1 (toL "f.spec.ts")
      (.ok (toL "it(\nEffect.gen\nimport \x7b a \x7d from 'vitest'")) (.ok ())).returned = true ∧
    (S1.processFile1 (toL "f.spec.ts")
      (.ok (toL "it(\nEffect.gen\nimport \x7b a \x7d from 'vitest'")) (.ok ())).written ≠ none := by
  refine ⟨by decide, by decide, by decide, by decide⟩

/-- C6 (amended): for inputs on which no pattern of either script
matches anywhere, the effect-vitest script returns the input unchanged
and its `process_file` skips the file without writing; the same holds
for convert-tests.py provided additionally that the input does not
contain `Effect.gen` without an Effect-import line (otherwise the
script's import step can still modify the input, see the
counterexample). -/
theorem c6_theorem (c path : Str)
    (h2a : ∀ p < c.length + 1, S2.matchIt2a (c.drop p) = none)
    (h2b : ∀ p < c.length + 1, S2.matchIt2b (c.drop p) = none)
    (h1 : ∀ p < c.length + 1, S1.matchIt1 (c.drop p) = none)
    (hg : hasSub c (toL "Effect.gen") = false ∨ hasSub c (toL "import \x7b Effect") = true) :
    S2.convert2 c = c ∧ S2.processFile2 path (.ok c) (.ok ()) = ⟨false, none, []⟩ ∧
    S1.convert1 c = c ∧ S1.processFile1 path (.ok c) (.ok ()) = ⟨false, none, []⟩ := by
  have hall2a : ∀ p, S2.matchIt2a (c.drop p) = none := fun p => by
    by_cases hp : p < c.length + 1
    · exact h2a p hp
    · rw [List.drop_eq_nil_of_le (by omega)]
      decide
  have hall2b : ∀ p, S2.matchIt2b (c.drop p) = none := fun p => by
    by_cases hp : p < c.length + 1
    · exact h2b p hp
    · rw [List.drop_eq_nil_of_le (by omega)]
      decide
  have hall1 : ∀ p, S1.matchIt1 (c.drop p) = none := fun p => by
    by_cases hp : p < c.length + 1
    · exact h1 p hp
    · rw [List.drop_eq_nil_of_le (by omega)]
      exact S1.matchIt1_nil
  have hc2 : S2.convert2 c = c := by
    cases hm : hasSub c (toL "it.effect(") with
    | true => exact S2.convert2_of_marker hm
    | false =>
      rw [S2.convert2, hm]
      simp only [Bool.false_eq_true, if_false]
      have ha : S2.pass2a c = c := by
        rw [S2.pass2a]
        exact subAll_nomatch fun p => by simp [S2.mr2a, hall2a p]
      have hb : S2.pass2b c = c := by
        rw [S2.pass2b]
        exact subAll_nomatch fun p => by simp [S2.mr2b, hall2b p]
      rw [ha, hb, S2.fixImports2_of_no_marker hm]
  have hc1 : S1.convert1 c = c := by
    have hsub : subAll S1.mr1 c = c :=
      subAll_nomatch fun p => by simp [S1.mr1, hall1 p]
    rw [S1.convert1, hsub, S1.importStep1]
    rcases hg with hg | hg
    · rw [hg]
      simp
    · rw [hg]
      simp
  refine ⟨hc2, ?_, hc1, ?_⟩
  · rw [S2.processFile2]
    cases hgd : (!hasSub c itLit || hasSub c (toL "it.effect(")) with
    | true => simp [hgd]
    | false => simp [hgd, hc2]
  · rw [S1.processFile1]
    cases hit : hasSub c itLit with
    | true => simp [hit, hc1]
    | false => simp [hit]

/-- Witness for C6 at a concrete input. -/
theorem c6_witness :
    S2.convert2 (toL "const x = 1") = toL "const x = 1" ∧
    S2.processFile2 (toL "f.spec.ts") (.ok (toL "const x = 1")) (.ok ()) = ⟨false, none, []⟩ ∧
    S1.convert1 (toL "const x = 1") = toL "const x = 1" ∧
    S1.processFile1 (toL "f.spec.ts") (.ok (toL "const x = 1")) (.ok ()) = ⟨false, none, []⟩ :=
  c6_theorem (toL "const x = 1") (toL "f.spec.ts") (by decide) (by decide) (by decide)
    (Or.inl (by decide))

/-- C2, counterexample: on the input `it('a', () => { x })` — exactly
one well-formed occurrence of the legacy pattern, body without nested
braces — the effect-vitest script's first-pass pattern ends at `\}`
without consuming the closing parenthesis, so the original `)` of the
occurrence survives: the output ends in `))`, an extra `{` is emitted
after `function* () {`, and import lines are inserted into the middle
of the converted text. -/
theorem c2_counterexample :
    S2.convert2 (toL "it('a', () => \x7b x \x7d)") =
      toL "it.effect('a',() =>\nimport \x7b Effect \x7d from 'effect'\nimport \x7b it \x7d from '@effect/vitest'\n  Effect.gen(function* () \x7b \x7b\n      x\n  \x7d)\n))" ∧
    ((S2.convert2 (toL "it('a', () => \x7b x \x7d)")).drop
      ((S2.convert2 (toL "it('a', () => \x7b x \x7d)")).length - 2)) = toL "))" := by
  refine ⟨by decide, by decide⟩

/-- C2 (amended, for convert-tests.py): on an input made of a prefix, a
single well-formed occurrence `it(name, () => { body })` with a
brace-free body, and a suffix — with the pattern matching nowhere in
the prefix or the suffix, and the replaced text containing neither
`'vitest'` nor `from 'effect'` so that the import step does not fire —
the output replaces exactly the occurrence by `replace_match`'s result:
the name is kept verbatim, the body is kept up to the script's
reindentation, and no character of the occurrence (in particular its
closing parenthesis) survives.  The effect-vitest script violates the
claim (see the counterexample). -/
theorem c2_theorem (pre ind name w1 w2 w3 body suf : Str)
    (hind : ∀ c ∈ ind, isSpace c = true)
    (hne : name ≠ [])
    (hname : ∀ c ∈ name, notComma c = true)
    (hw1 : ∀ c ∈ w1, isSpace c = true)
    (hw2 : ∀ c ∈ w2, isSpace c = true)
    (hw3 : ∀ c ∈ w3, isSpace c = true)
    (hbody : ∀ c ∈ body, c ≠ lbChar ∧ c ≠ rbChar)
    (hpre : ∀ p < pre.length, S1.matchIt1 ((pre ++ ind ++ itLit ++ name ++ ',' :: w1 ++
      parLit ++ w2 ++ arrLit ++ w3 ++ lbChar :: body ++ rbChar :: ')' :: suf).drop p) = none)
    (hsuf : ∀ p < suf.length + 1, S1.matchIt1 (suf.drop p) = none)
    (hv : hasSub (pre ++ S1.repl1 ind name body ++ suf) (toL "'vitest'") = false)
    (he : hasSub (pre ++ S1.repl1 ind name body ++ suf) (toL "from 'effect'") = false) :
    S1.convert1 (pre ++ ind ++ itLit ++ name ++ ',' :: w1 ++ parLit ++ w2 ++ arrLit ++
      w3 ++ lbChar :: body ++ rbChar :: ')' :: suf) =
      pre ++ S1.repl1 ind name body ++ suf := by
  have hshape : pre ++ ind ++ itLit ++ name ++ ',' :: w1 ++ parLit ++ w2 ++ arrLit ++
      w3 ++ lbChar :: body ++ rbChar :: ')' :: suf =
      pre ++ (ind ++ 'i' :: 't' :: '(' :: (name ++ ',' :: (w1 ++ '(' :: ')' ::
        (w2 ++ '=' :: '>' :: (w3 ++ lbChar :: (body ++ rbChar :: ')' :: suf)))))) := by
    rw [show itLit = ['i', 't', '('] by decide, show parLit = ['(', ')'] by decide,
      show arrLit = ['=', '>'] by decide]
    simp [List.append_assoc]
  rw [hshape] at hpre ⊢
  exact S1.convert1_structured pre ind name w1 w2 w3 (body ++ rbChar :: ')' :: suf) body suf
    hind hne hname hw1 hw2 hw3 (S1.pickBody1_flat hbody suf) hpre hsuf hv he

/-- Witness for C2 at a concrete occurrence. -/
theorem c2_witness :
    S1.convert1 (([] : Str) ++ ([] : Str) ++ itLit ++ toL "'n'" ++ ',' :: [' '] ++ parLit ++
      [' '] ++ arrLit ++ [' '] ++ lbChar :: toL " yield 1 " ++ rbChar :: ')' :: ([] : Str)) =
      ([] : Str) ++ S1.repl1 [] (toL "'n'") (toL " yield 1 ") ++ ([] : Str) :=
  c2_theorem [] [] (toL "'n'") [' '] [' '] [' '] (toL " yield 1 ") []
    (by decide) (by decide) (by decide) (by decide) (by decide) (by decide) (by decide)
    (by decide) (by decide) (by decide) (by decide)

/-- C4, counterexample: on the Scenario A input — `it('adds numbers',
() => { expect(1+1).toBe(2) })` below a vitest import listing `it,
describe, expect` — convert-tests.py's conversion does not remove `it`
from the vitest import and never imports from `@effect/vitest`: it
inserts `import { Effect } from 'effect'` instead, although the
converted text contains the target wrapper call. -/
theorem c4_counterexample :
    S1.convert1 (toL "import \x7b it, describe, expect \x7d from 'vitest'\n\nit('adds numbers', () => \x7b expect(1+1).toBe(2) \x7d)") =
      toL "import \x7b it, describe, expect \x7d from 'vitest'\nimport \x7b Effect \x7d from 'effect'\n\nit.effect('adds numbers', () =>\n\n\n  Effect.gen(function* () \x7b\n  expect(1+1).toBe(2)\n\n\n  \x7d)\n\n\n)" ∧
    hasSub (S1.convert1 (toL "import \x7b it, describe, expect \x7d from 'vitest'\n\nit('adds numbers', () => \x7b expect(1+1).toBe(2) \x7d)"))
      (toL "@effect/vitest") = false ∧
    hasSub (S1.convert1 (toL "import \x7b it, describe, expect \x7d from 'vitest'\n\nit('adds numbers', () => \x7b expect(1+1).toBe(2) \x7d)"))
      (toL "import \x7b it, describe, expect \x7d from 'vitest'") = true := by
  refine ⟨by decide, by decide, by decide⟩

/-- C4 (amended, for the effect-vitest script's `fix_imports`): when the
content contains the target wrapper call, exactly one line matches the
vitest-import pattern and it is `import { it, describe, expect } from
'vitest'`, no line matches the effect-import pattern, and the content
does not contain `Effect.gen` (whose trailing insert at a fixed global
index could otherwise separate the two lines), the vitest import line
retains only `describe, expect` and the very next line of the output is
`import { it } from '@effect/vitest'`.  convert-tests.py violates the
claim (see the counterexample). -/
theorem c4_theorem (pre suf : List Str) (content : Str)
    (hc : content = List.intercalate ['\n'] (pre ++
      [toL "import \x7b it, describe, expect \x7d from 'vitest'"] ++ suf))
    (hpre : ∀ l ∈ pre, S2.vitestLine l = false ∧ S2.effectLine l = false ∧ '\n' ∉ l)
    (hsuf : ∀ l ∈ suf, S2.vitestLine l = false ∧ S2.effectLine l = false ∧ '\n' ∉ l)
    (hit : hasSub content (toL "it.effect(") = true)
    (hgen : hasSub content (toL "Effect.gen") = false) :
    S2.fixImports2 content = List.intercalate ['\n'] (pre ++
      [toL "import \x7b describe, expect \x7d from 'vitest'", S2.itImportLine] ++ suf) := by
  subst hc
  rw [S2.fixImports2]
  simp only [hit, if_true]
  have hsplit : (List.intercalate ['\n'] (pre ++
      [toL "import \x7b it, describe, expect \x7d from 'vitest'"] ++ suf)).splitOn '\n' =
      pre ++ [toL "import \x7b it, describe, expect \x7d from 'vitest'"] ++ suf := by
    apply List.splitOn_intercalate
    · intro l hl
      rcases List.mem_append.mp hl with hl | hl
      · rcases List.mem_append.mp hl with hl | hl
        · exact (hpre l hl).2.2
        · rcases List.mem_singleton.mp hl with rfl
          decide
      · exact (hsuf l hl).2.2
    · simp
  rw [hsplit, List.append_assoc,
    S2.fixLoop_prefix (fun l hl => ⟨(hpre l hl).1, (hpre l hl).2.1⟩) _ false false false,
    List.singleton_append, S2.fixLoop,
    S2.fixLoop_passthrough (fun l hl => ⟨(hsuf l hl).1, (hsuf l hl).2.1⟩) true true false]
  rw [show S2.vitestLine (toL "import \x7b it, describe, expect \x7d from 'vitest'") = true
    by decide]
  rw [show S2.processVitestLine (toL "import \x7b it, describe, expect \x7d from 'vitest'") =
    toL "import \x7b describe, expect \x7d from 'vitest'" by decide]
  have hgen' : hasSub (List.intercalate ['\n'] (pre ++
      toL "import \x7b it, describe, expect \x7d from 'vitest'" :: suf))
      (toL "Effect.gen") = false := by simpa using hgen
  simp [hgen', List.append_assoc]

/-- Witness for C4 at a concrete file. -/
theorem c4_witness :
    S2.fixImports2 (List.intercalate ['\n'] ([toL "// header"] ++
      [toL "import \x7b it, describe, expect \x7d from 'vitest'"] ++ [toL "it.effect('a')"])) =
      List.intercalate ['\n'] ([toL "// header"] ++
        [toL "import \x7b describe, expect \x7d from 'vitest'", S2.itImportLine] ++
        [toL "it.effect('a')"]) :=
  c4_theorem [toL "// header"] [toL "it.effect('a')"] _ rfl (by decide) (by decide)
    (by decide) (by decide)

/-- C9 counterexample: neither script always captures a one-nested-pair
body in full.  The effect-vitest first pass ends its pattern at a bare
closing brace, so it truncates the body `const o = \x7b a: 1 \x7d ...` at the
FIRST closing brace: the nested object literal does not survive in the
output (second conjunct) and the tail `use(o) \x7d)` is left dangling.
convert-tests.py tries body candidates shortest-first, so when the text
after the nested pair begins with `)` (here `fn(\x7ba: 1\x7d); g()`), the short
candidate `fn(\x7ba: 1` already matches and the call `fn(\x7ba: 1\x7d)` is cut in
half (fourth conjunct). -/
theorem c9_counterexample :
    S2.pass2a (toL "it('n', () => \x7b const o = \x7b a: 1 \x7d\nuse(o) \x7d)") =
      toL "it.effect('n',() =>\n  Effect.gen(function* () \x7b \x7b\n      const o = \x7b a: 1\n  \x7d)\n)\nuse(o) \x7d)" ∧
    hasSub (S2.pass2a (toL "it('n', () => \x7b const o = \x7b a: 1 \x7d\nuse(o) \x7d)"))
      (toL "const o = \x7b a: 1 \x7d") = false ∧
    S1.convert1 (toL "it('n', () => \x7b fn(\x7ba: 1\x7d); g() \x7d)") =
      toL "it.effect('n', () =>\n  Effect.gen(function* () \x7b\n  fn(\x7ba: 1\n  \x7d)\n); g() \x7d)" ∧
    hasSub (S1.convert1 (toL "it('n', () => \x7b fn(\x7ba: 1\x7d); g() \x7d)"))
      (toL "fn(\x7ba: 1\x7d)") = false := by
  decide

/-- C9 (amended): for convert-tests.py, a legacy call whose body
contains exactly one nested brace pair, `b1 \x7b b2 \x7d b3`, is fully captured
and converted PROVIDED the text after the nested pair does not begin
with a closing parenthesis (hypothesis `hb3r`): the engine tries the
short candidate ending at the nested pair first, and only when that
candidate is not followed by `)` does backtracking extend the capture
to the whole body.  Deeper nesting may be left unconverted, which the
claim permits. -/
theorem c9_theorem (pre ind name w1 w2 w3 b1 b2 b3 suf : Str)
    (hind : ∀ c ∈ ind, isSpace c = true)
    (hne : name ≠ [])
    (hname : ∀ c ∈ name, notComma c = true)
    (hw1 : ∀ c ∈ w1, isSpace c = true)
    (hw2 : ∀ c ∈ w2, isSpace c = true)
    (hw3 : ∀ c ∈ w3, isSpace c = true)
    (hb1 : ∀ c ∈ b1, c ≠ lbChar ∧ c ≠ rbChar)
    (hb2 : ∀ c ∈ b2, c ≠ lbChar ∧ c ≠ rbChar)
    (hb3 : ∀ c ∈ b3, c ≠ lbChar ∧ c ≠ rbChar)
    (hb3r : S1.startsRParen (b3 ++ rbChar :: ')' :: suf) = false)
    (hpre : ∀ p < pre.length, S1.matchIt1 ((pre ++ ind ++ itLit ++ name ++ ',' :: w1 ++
      parLit ++ w2 ++ arrLit ++ w3 ++ lbChar :: (b1 ++ lbChar :: b2 ++ rbChar :: b3) ++
      rbChar :: ')' :: suf).drop p) = none)
    (hsuf : ∀ p < suf.length + 1, S1.matchIt1 (suf.drop p) = none)
    (hv : hasSub (pre ++ S1.repl1 ind name (b1 ++ lbChar :: b2 ++ rbChar :: b3) ++ suf)
      (toL "'vitest'") = false)
    (he : hasSub (pre ++ S1.repl1 ind name (b1 ++ lbChar :: b2 ++ rbChar :: b3) ++ suf)
      (toL "from 'effect'") = false) :
    S1.convert1 (pre ++ ind ++ itLit ++ name ++ ',' :: w1 ++ parLit ++ w2 ++ arrLit ++
      w3 ++ lbChar :: (b1 ++ lbChar :: b2 ++ rbChar :: b3) ++ rbChar :: ')' :: suf) =
      pre ++ S1.repl1 ind name (b1 ++ lbChar :: b2 ++ rbChar :: b3) ++ suf := by
  have hshape : pre ++ ind ++ itLit ++ name ++ ',' :: w1 ++ parLit ++ w2 ++ arrLit ++
      w3 ++ lbChar :: (b1 ++ lbChar :: b2 ++ rbChar :: b3) ++ rbChar :: ')' :: suf =
      pre ++ (ind ++ 'i' :: 't' :: '(' :: (name ++ ',' :: (w1 ++ '(' :: ')' ::
        (w2 ++ '=' :: '>' :: (w3 ++ lbChar ::
          ((b1 ++ lbChar :: b2 ++ rbChar :: b3) ++ rbChar :: ')' :: suf)))))) := by
    rw [show itLit = ['i', 't', '('] by decide, show parLit = ['(', ')'] by decide,
      show arrLit = ['=', '>'] by decide]
    simp [List.append_assoc]
  rw [hshape] at hpre ⊢
  exact S1.convert1_structured pre ind name w1 w2 w3
    ((b1 ++ lbChar :: b2 ++ rbChar :: b3) ++ rbChar :: ')' :: suf)
    (b1 ++ lbChar :: b2 ++ rbChar :: b3) suf
    hind hne hname hw1 hw2 hw3 (S1.pickBody1_nested hb1 hb2 hb3 suf hb3r) hpre hsuf hv he

/-- Witness for C9 at a concrete occurrence (the text after the nested
pair is a space, so it does not begin with a closing parenthesis). -/
theorem c9_witness :
    S1.convert1 (([] : Str) ++ ([] : Str) ++ itLit ++ toL "'n'" ++ ',' :: [' '] ++ parLit ++
      [' '] ++ arrLit ++ [' '] ++ lbChar :: (toL " o = " ++ lbChar :: toL "a: 1" ++
        rbChar :: toL " ") ++ rbChar :: ')' :: ([] : Str)) =
      ([] : Str) ++ S1.repl1 [] (toL "'n'")
        (toL " o = " ++ lbChar :: toL "a: 1" ++ rbChar :: toL " ") ++ ([] : Str) :=
  c9_theorem [] [] (toL "'n'") [' '] [' '] [' '] (toL " o = ") (toL "a: 1") (toL " ") []
    (by decide) (by decide) (by decide) (by decide) (by decide) (by decide) (by decide)
    (by decide) (by decide) (by decide) (by decide) (by decide) (by decide) (by decide)

/-- C10: the conversion operations of both scripts are deterministic
pure functions of the input text: the embedding is a total function, so
equal inputs give equal outputs and no file-system, time, or global
state can influence the result. -/
theorem c10_theorem (c1 c2 : Str) (h : c1 = c2) :
    S1.convert1 c1 = S1.convert1 c2 ∧ S2.convert2 c1 = S2.convert2 c2 := by
  subst h
  exact ⟨rfl, rfl⟩

/-- Witness for C10 at a concrete input. -/
theorem c10_witness :
    S1.convert1 (toL "it('a', () => \x7b x \x7d)") = S1.convert1 (toL "it('a', () => \x7b x \x7d)") ∧
    S2.convert2 (toL "it('a', () => \x7b x \x7d)") = S2.convert2 (toL "it('a', () => \x7b x \x7d)") :=
  c10_theorem _ _ rfl

end TsMc
